import Mathlib

/-!
Verification of the claude-fzf session-metadata pipeline and tmux
session-naming helpers, as a shallow embedding of the Go source:
  internal/session/parser.go, internal/session/scanner.go,
  internal/cache/cache.go, internal/tmux (ProjectToSessionName),
  cmd/claude-fzf/main.go.

Modelling conventions:
  - Go strings are Lean String values (one Char per byte; transcripts are
    treated as ASCII, matching the spec's character counts).
  - time.Time is a Nat (only equality and identity of mtimes matter here).
  - The file system is a function from path to Option FileData; none models
    an open or stat failure, some a readable file.  A transcript is a list
    of lines, each either a well-formed structured line (some JsonLine,
    mirroring the jsonLine struct) or malformed (none, the case where
    json.Unmarshal fails and the line is skipped).
  - The goroutine fan-out of the scanner is modelled sequentially: each
    spawned task touches the cache only at its own file path, so for
    duplicate-free path lists the sequential model has the same per-file
    semantics.
-/

/-- Session mirrors the Go struct session.Session (types.go).  ModTime is a
Nat standing for time.Time. -/
structure Session where
  ID : String
  ProjectPath : String
  Summary : String
  ModTime : Nat
  FilePath : String
  GitBranch : String
  UserMsgCount : Nat
  AsstMsgCount : Nat
deriving DecidableEq, Repr

/-- emptySession is the Go zero value Session\x7b\x7d. -/
def emptySession : Session :=
  { ID := "", ProjectPath := "", Summary := "", ModTime := 0,
    FilePath := "", GitBranch := "", UserMsgCount := 0, AsstMsgCount := 0 }

/-- JsonLine mirrors the jsonLine struct of parser.go: the decoded fields of
one well-formed JSONL line.  messageContent stands for Message.Content. -/
structure JsonLine where
  type : String
  cwd : String
  summary : String
  messageContent : String
  gitBranch : String
deriving DecidableEq, Repr

/-- FileData is the content of one transcript file together with its mtime:
what os.Open + f.Stat + the line scanner expose to ParseFile. -/
structure FileData where
  lines : List (Option JsonLine)
  modTime : Nat
deriving DecidableEq, Repr

/-- trimSuffix mirrors strings.TrimSuffix. -/
def trimSuffix (s suffix : String) : String :=
  if suffix.data.isSuffixOf s.data then ⟨s.data.take (s.data.length - suffix.data.length)⟩
  else s

/-- basePath mirrors path/filepath.Base on unix paths (no volume names):
empty input gives ".", trailing slashes are stripped, the last element is
returned, and an all-slash path gives "/". -/
def basePath (path : String) : String :=
  if path = "" then "."
  else
    let stripped := (path.data.reverse.dropWhile (fun c => c = '/')).reverse
    let last := (stripped.reverse.takeWhile (fun c => c ≠ '/')).reverse
    if last = [] then "/" else ⟨last⟩

/-- sessionId is the ID computation of ParseFile (parser.go line 36):
strings.TrimSuffix(filepath.Base(path), ".jsonl"). -/
def sessionId (path : String) : String :=
  trimSuffix (basePath path) ".jsonl"

/-- truncate mirrors truncate of parser.go: strings of length at most maxLen
are returned unchanged, longer ones are cut to maxLen - 3 characters and an
ellipsis marker "..." is appended. -/
def truncate (s : String) (maxLen : Nat) : String :=
  if s.length ≤ maxLen then s
  else ⟨s.data.take (maxLen - 3)⟩ ++ "..."

/-- processLine mirrors Session.processLine of parser.go, returning the
updated session and the updated firstUserMsg accumulator. -/
def processLine (s : Session) (line : JsonLine) (firstUserMsg : String) :
    Session × String :=
  let step :=
    if line.type = "user" then
      let s1 := { s with UserMsgCount := s.UserMsgCount + 1 }
      let s2 := if s1.ProjectPath = "" ∧ line.cwd ≠ "" then
                  { s1 with ProjectPath := line.cwd } else s1
      let fum := if firstUserMsg = "" ∧ line.messageContent ≠ "" then
                   line.messageContent else firstUserMsg
      (s2, fum)
    else if line.type = "assistant" then
      ({ s with AsstMsgCount := s.AsstMsgCount + 1 }, firstUserMsg)
    else if line.type = "summary" then
      (if line.summary ≠ "" then { s with Summary := line.summary } else s, firstUserMsg)
    else
      (s, firstUserMsg)
  let s3 := if line.gitBranch ≠ "" ∧ step.1.GitBranch = "" then
              { step.1 with GitBranch := line.gitBranch } else step.1
  (s3, step.2)

/-- processLines is the scanner loop of ParseFile: malformed lines (none)
are skipped, well-formed lines go through processLine. -/
def processLines (lines : List (Option JsonLine)) (s : Session) (fum : String) :
    Session × String :=
  match lines with
  | [] => (s, fum)
  | none :: rest => processLines rest s fum
  | some line :: rest =>
    let r := processLine s line fum
    processLines rest r.1 r.2

/-- finalizeSummary mirrors Session.finalizeSummary of parser.go. -/
def finalizeSummary (s : Session) (firstUserMsg : String) : Session :=
  if s.Summary ≠ "" then s
  else if firstUserMsg ≠ "" then { s with Summary := truncate firstUserMsg 60 }
  else { s with Summary := "(no summary)" }

/-- ParseFile mirrors session.ParseFile: none iff opening or statting the
file fails (fs path = none); otherwise the record is built from the path,
the mtime, and a fold of processLine over the well-formed lines, finished
by finalizeSummary. -/
def ParseFile (fs : String → Option FileData) (path : String) : Option Session :=
  match fs path with
  | none => none
  | some fd =>
    let init : Session :=
      { ID := sessionId path, ProjectPath := "", Summary := "",
        ModTime := fd.modTime, FilePath := path, GitBranch := "",
        UserMsgCount := 0, AsstMsgCount := 0 }
    let r := processLines fd.lines init ""
    some (finalizeSummary r.1 r.2)

/-- Entry mirrors cache.Entry; the Go field Session is called Sess here to
avoid clashing with the type name. -/
structure Entry where
  ModTime : Nat
  Sess : Session
deriving DecidableEq, Repr

/-- Cache models cache.Cache: the persisted map from file path to Entry
(the Go map, modelled as a function with none for absent keys). -/
structure Cache where
  entries : String → Option Entry

namespace Cache

/-- Get mirrors Cache.Get: the entry is served iff the key is present and
its stored ModTime is exactly equal to the given mtime; otherwise the Go
zero Session and false are returned. -/
def Get (c : Cache) (path : String) (mtime : Nat) : Session × Bool :=
  match c.entries path with
  | none => (emptySession, false)
  | some e => if e.ModTime = mtime then (e.Sess, true) else (emptySession, false)

/-- Set mirrors Cache.Set: unconditional overwrite of the key. -/
def Set (c : Cache) (path : String) (mtime : Nat) (sess : Session) : Cache :=
  ⟨fun p => if p = path then some { ModTime := mtime, Sess := sess } else c.entries p⟩

/-- Prune mirrors Cache.Prune: every key not in validPaths is deleted,
every key in validPaths keeps its entry. -/
def Prune (c : Cache) (validPaths : String → Bool) : Cache :=
  ⟨fun p => if validPaths p then c.entries p else none⟩

end Cache

/-- emptyCache is a freshly constructed cache with no entries (the load
failure / first run case). -/
def emptyCache : Cache := ⟨fun _ => none⟩

/-- FileInfo mirrors the fileInfo struct of scanner.go: one discovered
transcript path with its mtime. -/
structure FileInfo where
  path : String
  modTime : Nat
deriving DecidableEq, Repr

/-- parseFilesWithCache mirrors Scanner.parseFilesWithCache: per discovered
file, a cache hit emits the cached record; a miss parses the file, and on
success stores and emits the result, on failure emits nothing.  The third
component records the paths for which ParseFile was invoked (the cache
misses), so parser invocations are observable in theorems. -/
def parseFilesWithCache (fs : String → Option FileData) (files : List FileInfo)
    (cache : Cache) : List Session × Cache × List String :=
  match files with
  | [] => ([], cache, [])
  | f :: rest =>
    let g := cache.Get f.path f.modTime
    if g.2 then
      let r := parseFilesWithCache fs rest cache
      (g.1 :: r.1, r.2.1, r.2.2)
    else
      match ParseFile fs f.path with
      | none =>
        let r := parseFilesWithCache fs rest cache
        (r.1, r.2.1, f.path :: r.2.2)
      | some sess =>
        let r := parseFilesWithCache fs rest (cache.Set f.path f.modTime sess)
        (sess :: r.1, r.2.1, f.path :: r.2.2)

/-- scanAllCached mirrors Scanner.ScanAllCached after discovery: the files
are processed against the cache, then the cache is pruned with the
discovered path set. -/
def scanAllCached (fs : String → Option FileData) (files : List FileInfo)
    (cache : Cache) : List Session × Cache × List String :=
  let r := parseFilesWithCache fs files cache
  (r.1, (r.2.1).Prune (fun p => files.any (fun f => f.path = p)), r.2.2)

/-- scanResult is the per-file outcome of one scan against a fixed starting
cache: the cached record on a hit, the parse result on a miss. -/
def scanResult (fs : String → Option FileData) (cache : Cache) (f : FileInfo) :
    Option Session :=
  if (cache.Get f.path f.modTime).2 then some (cache.Get f.path f.modTime).1
  else ParseFile fs f.path

/-- ProjectToSessionName mirrors tmux.ProjectToSessionName: filepath.Base of
the project path, with "" and "." mapped to the fallback name "claude". -/
def ProjectToSessionName (projectPath : String) : String :=
  let name := basePath projectPath
  if name = "" ∨ name = "." then "claude" else name

/-- Modelled from the spec: the implementation of Manager.IsDisposableSession
is not among the provided sources (only its callers in cmd/claude-fzf/main.go
are); section 4.4 defines the predicate as: a session is disposable iff its
name is purely numeric and it has at most 2 windows. -/
def isDisposableSession (name : String) (windowCount : Nat) : Bool :=
  name ≠ "" && name.data.all Char.isDigit && windowCount ≤ 2

/-- specLastSummary follows the spec words for summary priority rule 1 (a
refinement observer, compared against the parser): the summary field of the
most recently seen well-formed summary line whose summary is non-empty. -/
def specLastSummary : List (Option JsonLine) → Option String
  | [] => none
  | none :: rest => specLastSummary rest
  | some l :: rest =>
    match specLastSummary rest with
    | some v => some v
    | none => if l.type = "summary" ∧ l.summary ≠ "" then some l.summary else none

/-- specFirstUserContent follows the spec words for summary priority rule 2
(a refinement observer): the content of the first well-formed participant
(user) line with non-empty message content. -/
def specFirstUserContent : List (Option JsonLine) → Option String
  | [] => none
  | none :: rest => specFirstUserContent rest
  | some l :: rest =>
    if l.type = "user" ∧ l.messageContent ≠ "" then some l.messageContent
    else specFirstUserContent rest

/-- specFirstUserCwd follows the spec words of section 4.2 (a refinement
observer): the working directory of the first well-formed participant (user)
line with a non-empty cwd field. -/
def specFirstUserCwd : List (Option JsonLine) → Option String
  | [] => none
  | none :: rest => specFirstUserCwd rest
  | some l :: rest =>
    if l.type = "user" ∧ l.cwd ≠ "" then some l.cwd
    else specFirstUserCwd rest

/-- specSummary follows the spec words for the full summary priority rule:
last explicit summary, else first user message truncated to 60, else the
placeholder. -/
def specSummary (lines : List (Option JsonLine)) : String :=
  match specLastSummary lines with
  | some v => v
  | none =>
    match specFirstUserContent lines with
    | some m => truncate m 60
    | none => "(no summary)"

/-! Parser lemmas: per-field behaviour of processLine, lifted through
processLines by induction. -/

lemma processLine_Summary (s : Session) (line : JsonLine) (fum : String) :
    (processLine s line fum).1.Summary =
      if line.type = "summary" ∧ line.summary ≠ "" then line.summary else s.Summary := by
  simp only [processLine]
  split_ifs <;> simp_all

lemma processLine_fum (s : Session) (line : JsonLine) (fum : String) :
    (processLine s line fum).2 =
      if line.type = "user" ∧ fum = "" ∧ line.messageContent ≠ "" then
        line.messageContent else fum := by
  simp only [processLine]
  split_ifs <;> simp_all

lemma processLine_ProjectPath (s : Session) (line : JsonLine) (fum : String) :
    (processLine s line fum).1.ProjectPath =
      if line.type = "user" ∧ s.ProjectPath = "" ∧ line.cwd ≠ "" then
        line.cwd else s.ProjectPath := by
  simp only [processLine]
  split_ifs <;> simp_all

lemma processLine_FilePath (s : Session) (line : JsonLine) (fum : String) :
    (processLine s line fum).1.FilePath = s.FilePath := by
  simp only [processLine]
  split_ifs <;> simp_all

lemma processLine_ID (s : Session) (line : JsonLine) (fum : String) :
    (processLine s line fum).1.ID = s.ID := by
  simp only [processLine]
  split_ifs <;> simp_all

lemma processLine_ModTime (s : Session) (line : JsonLine) (fum : String) :
    (processLine s line fum).1.ModTime = s.ModTime := by
  simp only [processLine]
  split_ifs <;> simp_all

lemma processLines_Summary (lines : List (Option JsonLine)) :
    ∀ (s : Session) (fum : String),
      (processLines lines s fum).1.Summary = (specLastSummary lines).getD s.Summary := by
  induction lines with
  | nil => intro s fum; simp [processLines, specLastSummary]
  | cons hd tl ih =>
    intro s fum
    cases hd with
    | none => simp [processLines, specLastSummary, ih]
    | some l =>
      simp only [processLines, specLastSummary, ih, processLine_Summary]
      cases h : specLastSummary tl with
      | some v => simp
      | none => split_ifs <;> simp_all

lemma processLines_fum (lines : List (Option JsonLine)) :
    ∀ (s : Session) (fum : String),
      (processLines lines s fum).2 =
        if fum = "" then (specFirstUserContent lines).getD "" else fum := by
  induction lines with
  | nil => intro s fum; simp [processLines, specFirstUserContent]; split_ifs <;> simp_all
  | cons hd tl ih =>
    intro s fum
    cases hd with
    | none => simp [processLines, specFirstUserContent, ih]
    | some l =>
      simp only [processLines, specFirstUserContent, ih, processLine_fum]
      by_cases hfum : fum = "" <;> split_ifs <;> simp_all

lemma processLines_ProjectPath (lines : List (Option JsonLine)) :
    ∀ (s : Session) (fum : String),
      (processLines lines s fum).1.ProjectPath =
        if s.ProjectPath = "" then (specFirstUserCwd lines).getD "" else s.ProjectPath := by
  induction lines with
  | nil => intro s fum; simp [processLines, specFirstUserCwd]; split_ifs <;> simp_all
  | cons hd tl ih =>
    intro s fum
    cases hd with
    | none => simp [processLines, specFirstUserCwd, ih]
    | some l =>
      simp only [processLines, specFirstUserCwd, ih, processLine_ProjectPath]
      by_cases hpp : s.ProjectPath = "" <;> split_ifs <;> simp_all

lemma processLines_FilePath (lines : List (Option JsonLine)) :
    ∀ (s : Session) (fum : String), (processLines lines s fum).1.FilePath = s.FilePath := by
  induction lines with
  | nil => intro s fum; simp [processLines]
  | cons hd tl ih =>
    intro s fum
    cases hd with
    | none => simp [processLines, ih]
    | some l => simp [processLines, ih, processLine_FilePath]

lemma processLines_ID (lines : List (Option JsonLine)) :
    ∀ (s : Session) (fum : String), (processLines lines s fum).1.ID = s.ID := by
  induction lines with
  | nil => intro s fum; simp [processLines]
  | cons hd tl ih =>
    intro s fum
    cases hd with
    | none => simp [processLines, ih]
    | some l => simp [processLines, ih, processLine_ID]

lemma processLines_ModTime (lines : List (Option JsonLine)) :
    ∀ (s : Session) (fum : String), (processLines lines s fum).1.ModTime = s.ModTime := by
  induction lines with
  | nil => intro s fum; simp [processLines]
  | cons hd tl ih =>
    intro s fum
    cases hd with
    | none => simp [processLines, ih]
    | some l => simp [processLines, ih, processLine_ModTime]

lemma specLastSummary_ne_empty (lines : List (Option JsonLine)) :
    ∀ v, specLastSummary lines = some v → v ≠ "" := by
  induction lines with
  | nil => intro v h; simp [specLastSummary] at h
  | cons hd tl ih =>
    intro v h
    cases hd with
    | none => exact ih v (by simpa [specLastSummary] using h)
    | some l =>
      simp only [specLastSummary] at h
      cases htl : specLastSummary tl with
      | some w =>
        rw [htl] at h
        have hv : w = v := Option.some_inj.mp h
        exact hv ▸ ih w htl
      | none =>
        rw [htl] at h
        split_ifs at h with hc
        · have hv := Option.some_inj.mp h
          simpa [← hv] using hc.2

lemma specFirstUserContent_ne_empty (lines : List (Option JsonLine)) :
    ∀ m, specFirstUserContent lines = some m → m ≠ "" := by
  induction lines with
  | nil => intro m h; simp [specFirstUserContent] at h
  | cons hd tl ih =>
    intro m h
    cases hd with
    | none => exact ih m (by simpa [specFirstUserContent] using h)
    | some l =>
      simp only [specFirstUserContent] at h
      split_ifs at h with hc
      · simpa [← Option.some_inj.mp h] using hc.2
      · exact ih m h

lemma finalizeSummary_Summary (s : Session) (fum : String) :
    (finalizeSummary s fum).Summary =
      if s.Summary ≠ "" then s.Summary
      else if fum ≠ "" then truncate fum 60 else "(no summary)" := by
  simp only [finalizeSummary]
  split_ifs <;> simp_all

lemma finalizeSummary_ProjectPath (s : Session) (fum : String) :
    (finalizeSummary s fum).ProjectPath = s.ProjectPath := by
  simp only [finalizeSummary]; split_ifs <;> simp_all

lemma finalizeSummary_FilePath (s : Session) (fum : String) :
    (finalizeSummary s fum).FilePath = s.FilePath := by
  simp only [finalizeSummary]; split_ifs <;> simp_all

lemma finalizeSummary_ID (s : Session) (fum : String) :
    (finalizeSummary s fum).ID = s.ID := by
  simp only [finalizeSummary]; split_ifs <;> simp_all

lemma finalizeSummary_ModTime (s : Session) (fum : String) :
    (finalizeSummary s fum).ModTime = s.ModTime := by
  simp only [finalizeSummary]; split_ifs <;> simp_all

/-- ParseFile on a readable file yields exactly one record whose identity
fields come from the path and mtime and whose summary and project path
follow the spec observers. -/
lemma ParseFile_characterization (fs : String → Option FileData) (path : String)
    (fd : FileData) (h : fs path = some fd) :
    ∀ sess, ParseFile fs path = some sess →
      sess.ID = sessionId path ∧ sess.FilePath = path ∧ sess.ModTime = fd.modTime ∧
      sess.Summary = specSummary fd.lines ∧
      sess.ProjectPath = (specFirstUserCwd fd.lines).getD "" := by
  intro sess hsess
  simp only [ParseFile, h] at hsess
  set init : Session :=
    { ID := sessionId path, ProjectPath := "", Summary := "",
      ModTime := fd.modTime, FilePath := path, GitBranch := "",
      UserMsgCount := 0, AsstMsgCount := 0 } with hinit
  have hid : init.ID = sessionId path := rfl
  have hsum : init.Summary = "" := rfl
  have hpp : init.ProjectPath = "" := rfl
  obtain rfl := Option.some_inj.mp hsess.symm
  refine ⟨?_, ?_, ?_, ?_, ?_⟩
  · rw [finalizeSummary_ID, processLines_ID]
  · rw [finalizeSummary_FilePath, processLines_FilePath]
  · rw [finalizeSummary_ModTime, processLines_ModTime]
  · rw [finalizeSummary_Summary, processLines_Summary, processLines_fum]
    simp only [hsum, specSummary]
    cases hls : specLastSummary fd.lines with
    | some v =>
      have hv := specLastSummary_ne_empty fd.lines v hls
      simp [hv]
    | none =>
      simp only [Option.getD_none, ite_true]
      cases hfc : specFirstUserContent fd.lines with
      | some m =>
        have hm := specFirstUserContent_ne_empty fd.lines m hfc
        simp [hm]
      | none => simp
  · rw [finalizeSummary_ProjectPath, processLines_ProjectPath]
    simp [hpp]

lemma truncate_of_le (s : String) (h : s.length ≤ 60) : truncate s 60 = s := by
  simp [truncate, h]

lemma truncate_of_gt (s : String) (h : 60 < s.length) :
    truncate s 60 = ⟨s.data.take 57⟩ ++ "..." := by
  simp [truncate, Nat.not_le.mpr h]

lemma truncate_length_of_gt (s : String) (h : 60 < s.length) :
    (truncate s 60).length = 60 := by
  rw [truncate_of_gt s h]
  have h57 : (57 : Nat) ≤ s.data.length := by
    have : s.length = s.data.length := rfl
    omega
  show ((s.data.take 57) ++ "...".data).length = 60
  simp [List.length_take]
  omega

/-! Cache and scanner lemmas. -/

lemma Cache.entries_Set (c : Cache) (path : String) (mtime : Nat) (sess : Session)
    (p : String) :
    (c.Set path mtime sess).entries p =
      if p = path then some { ModTime := mtime, Sess := sess } else c.entries p := rfl

lemma Cache.entries_Prune (c : Cache) (validPaths : String → Bool) (p : String) :
    (c.Prune validPaths).entries p =
      if validPaths p then c.entries p else none := rfl

lemma Cache.Get_congr {c1 c2 : Cache} (path : String) (mtime : Nat)
    (h : c1.entries path = c2.entries path) :
    c1.Get path mtime = c2.Get path mtime := by
  unfold Cache.Get
  rw [h]

lemma scanResult_congr {fs : String → Option FileData} {c1 c2 : Cache} {f : FileInfo}
    (h : c1.entries f.path = c2.entries f.path) :
    scanResult fs c1 f = scanResult fs c2 f := by
  unfold scanResult
  rw [Cache.Get_congr f.path f.modTime h]

lemma parseFilesWithCache_entries_not_mem (fs : String → Option FileData) :
    ∀ (files : List FileInfo) (cache : Cache) (p : String),
      p ∉ files.map FileInfo.path →
      ((parseFilesWithCache fs files cache).2.1).entries p = cache.entries p := by
  intro files
  induction files with
  | nil => intro cache p _; rfl
  | cons f rest ih =>
    intro cache p hp
    simp only [List.map_cons, List.mem_cons, not_or] at hp
    obtain ⟨hpf, hprest⟩ := hp
    simp only [parseFilesWithCache]
    split_ifs with hhit
    · exact ih cache p (by simpa using hprest)
    · cases hpf2 : ParseFile fs f.path with
      | none => simpa [hpf2] using ih cache p (by simpa using hprest)
      | some sess =>
        simp only [hpf2]
        rw [ih (cache.Set f.path f.modTime sess) p (by simpa using hprest)]
        rw [Cache.entries_Set]
        simp [hpf]


lemma parseFilesWithCache_cons_hit {fs : String → Option FileData} {cache : Cache}
    {f : FileInfo} (rest : List FileInfo)
    (h : (cache.Get f.path f.modTime).2 = true) :
    parseFilesWithCache fs (f :: rest) cache =
      ((cache.Get f.path f.modTime).1 :: (parseFilesWithCache fs rest cache).1,
       (parseFilesWithCache fs rest cache).2.1,
       (parseFilesWithCache fs rest cache).2.2) := by
  simp [parseFilesWithCache, h]

lemma parseFilesWithCache_cons_miss_none {fs : String → Option FileData} {cache : Cache}
    {f : FileInfo} (rest : List FileInfo)
    (h : (cache.Get f.path f.modTime).2 = false)
    (hp : ParseFile fs f.path = none) :
    parseFilesWithCache fs (f :: rest) cache =
      ((parseFilesWithCache fs rest cache).1,
       (parseFilesWithCache fs rest cache).2.1,
       f.path :: (parseFilesWithCache fs rest cache).2.2) := by
  simp only [parseFilesWithCache, h, hp, Bool.false_eq_true, if_false]

lemma parseFilesWithCache_cons_miss_some {fs : String → Option FileData} {cache : Cache}
    {f : FileInfo} {sess : Session} (rest : List FileInfo)
    (h : (cache.Get f.path f.modTime).2 = false)
    (hp : ParseFile fs f.path = some sess) :
    parseFilesWithCache fs (f :: rest) cache =
      (sess :: (parseFilesWithCache fs rest (cache.Set f.path f.modTime sess)).1,
       (parseFilesWithCache fs rest (cache.Set f.path f.modTime sess)).2.1,
       f.path :: (parseFilesWithCache fs rest (cache.Set f.path f.modTime sess)).2.2) := by
  simp only [parseFilesWithCache, h, hp, Bool.false_eq_true, if_false]

lemma parseFilesWithCache_entries_mem (fs : String → Option FileData) :
    ∀ (files : List FileInfo) (cache : Cache) (f : FileInfo),
      (files.map FileInfo.path).Nodup → f ∈ files →
      ((parseFilesWithCache fs files cache).2.1).entries f.path =
        if (cache.Get f.path f.modTime).2 then cache.entries f.path
        else
          match ParseFile fs f.path with
          | none => cache.entries f.path
          | some sess => some { ModTime := f.modTime, Sess := sess } := by
  intro files
  induction files with
  | nil => intro cache f _ hf; simp at hf
  | cons g rest ih =>
    intro cache f hnd hf
    simp only [List.map_cons, List.nodup_cons] at hnd
    obtain ⟨hgp, hndrest⟩ := hnd
    rcases List.mem_cons.mp hf with rfl | hfrest
    · have hnot : f.path ∉ rest.map FileInfo.path := hgp
      rcases Bool.eq_false_or_eq_true (cache.Get f.path f.modTime).2 with hhit | hhit
      · rw [parseFilesWithCache_cons_hit rest hhit]
        simp only [hhit, if_true]
        exact parseFilesWithCache_entries_not_mem fs rest cache f.path hnot
      · cases hpf : ParseFile fs f.path with
        | none =>
          rw [parseFilesWithCache_cons_miss_none rest hhit hpf]
          simp only [hhit, Bool.false_eq_true, if_false, hpf]
          exact parseFilesWithCache_entries_not_mem fs rest cache f.path hnot
        | some sess =>
          rw [parseFilesWithCache_cons_miss_some rest hhit hpf]
          simp only [hhit, Bool.false_eq_true, if_false, hpf]
          rw [parseFilesWithCache_entries_not_mem fs rest
            (cache.Set f.path f.modTime sess) f.path hnot, Cache.entries_Set]
          simp
    · have hfg : f.path ≠ g.path := by
        intro hcon
        exact hgp (hcon ▸ List.mem_map_of_mem FileInfo.path hfrest)
      have key : ∀ c1 : Cache, c1.entries f.path = cache.entries f.path →
          ((parseFilesWithCache fs rest c1).2.1).entries f.path =
            (if (cache.Get f.path f.modTime).2 then cache.entries f.path
             else
               match ParseFile fs f.path with
               | none => cache.entries f.path
               | some sess => some { ModTime := f.modTime, Sess := sess }) := by
        intro c1 hagree
        rw [ih c1 f hndrest hfrest, Cache.Get_congr f.path f.modTime hagree, hagree]
      rcases Bool.eq_false_or_eq_true (cache.Get g.path g.modTime).2 with hhit | hhit
      · rw [parseFilesWithCache_cons_hit rest hhit]
        exact key cache rfl
      · cases hpf : ParseFile fs g.path with
        | none =>
          rw [parseFilesWithCache_cons_miss_none rest hhit hpf]
          exact key cache rfl
        | some sess =>
          rw [parseFilesWithCache_cons_miss_some rest hhit hpf]
          refine key (cache.Set g.path g.modTime sess) ?_
          rw [Cache.entries_Set]
          simp [hfg]

lemma parseFilesWithCache_out_parsed (fs : String → Option FileData) :
    ∀ (files : List FileInfo) (cache : Cache),
      (files.map FileInfo.path).Nodup →
      (parseFilesWithCache fs files cache).1 = files.filterMap (scanResult fs cache) ∧
      (parseFilesWithCache fs files cache).2.2 =
        (files.filter (fun f => !(cache.Get f.path f.modTime).2)).map FileInfo.path := by
  intro files
  induction files with
  | nil => intro cache _; exact ⟨rfl, rfl⟩
  | cons g rest ih =>
    intro cache hnd
    simp only [List.map_cons, List.nodup_cons] at hnd
    obtain ⟨hgp, hndrest⟩ := hnd
    rcases Bool.eq_false_or_eq_true (cache.Get g.path g.modTime).2 with hhit | hhit
    · obtain ⟨ihout, ihparsed⟩ := ih cache hndrest
      rw [parseFilesWithCache_cons_hit rest hhit]
      constructor
      · simp only [List.filterMap_cons]
        have hg : scanResult fs cache g = some (cache.Get g.path g.modTime).1 := by
          simp [scanResult, hhit]
        rw [hg, ihout]
      · simp only [List.filter_cons, hhit]
        simpa using ihparsed
    · cases hpf : ParseFile fs g.path with
      | none =>
        obtain ⟨ihout, ihparsed⟩ := ih cache hndrest
        rw [parseFilesWithCache_cons_miss_none rest hhit hpf]
        constructor
        · simp only [List.filterMap_cons]
          have hg : scanResult fs cache g = none := by
            simp [scanResult, hhit, hpf]
          rw [hg, ihout]
        · simp only [List.filter_cons, hhit]
          simpa using ihparsed
      | some sess =>
        obtain ⟨ihout, ihparsed⟩ :=
          ih (cache.Set g.path g.modTime sess) hndrest
        rw [parseFilesWithCache_cons_miss_some rest hhit hpf]
        have hag : ∀ x ∈ rest, (cache.Set g.path g.modTime sess).entries x.path =
            cache.entries x.path := by
          intro x hx
          rw [Cache.entries_Set]
          have hne : x.path ≠ g.path := by
            intro hcon
            exact hgp (hcon ▸ List.mem_map_of_mem FileInfo.path hx)
          simp [hne]
        constructor
        · simp only [List.filterMap_cons]
          have hg : scanResult fs cache g = some sess := by
            simp [scanResult, hhit, hpf]
          rw [hg, ihout]
          congr 1
          exact List.filterMap_congr fun x hx => scanResult_congr (hag x hx)
        · simp only [List.filter_cons, hhit]
          rw [ihparsed]
          have : rest.filter (fun f =>
              !((cache.Set g.path g.modTime sess).Get f.path f.modTime).2) =
              rest.filter (fun f => !(cache.Get f.path f.modTime).2) := by
            apply List.filter_congr
            intro x hx
            rw [Cache.Get_congr x.path x.modTime (hag x hx)]
          rw [this]
          simp

/-! Claim theorems. -/

/-- C10: ParseFile returns an error (none) iff opening or statting the file
fails; whenever the file is readable it returns a record, regardless of the
file content (malformed, empty, or unparseable lines included). -/
theorem claim_C10_parse_never_fails_on_content (fs : String → Option FileData)
    (path : String) : (ParseFile fs path).isSome ↔ (fs path).isSome := by
  unfold ParseFile
  cases fs path <;> simp

/-- C2: Cache.Get finds an entry iff the key is present with stored ModTime
exactly equal to the requested mtime; a present entry with any other stored
mtime (in either direction) is never served, and on a non-find the Go zero
record is returned. -/
theorem claim_C2_get_exact_mtime (c : Cache) (path : String) (mtime : Nat) :
    ((c.Get path mtime).2 = true ↔
      ∃ e, c.entries path = some e ∧ e.ModTime = mtime) ∧
    (∀ e, c.entries path = some e → e.ModTime = mtime →
      c.Get path mtime = (e.Sess, true)) ∧
    (∀ e, c.entries path = some e → e.ModTime ≠ mtime →
      c.Get path mtime = (emptySession, false)) ∧
    (c.entries path = none → c.Get path mtime = (emptySession, false)) := by
  unfold Cache.Get
  cases h : c.entries path with
  | none => simp
  | some e =>
    refine ⟨?_, ?_, ?_, ?_⟩
    · constructor
      · intro ht
        refine ⟨e, rfl, ?_⟩
        by_contra hne
        simp [hne] at ht
      · rintro ⟨e2, he2, hm⟩
        obtain rfl := Option.some_inj.mp he2
        simp [hm]
    · intro e2 he2 hm
      obtain rfl := Option.some_inj.mp he2
      simp [hm]
    · intro e2 he2 hm
      obtain rfl := Option.some_inj.mp he2
      simp [hm]
    · intro hcon; cases hcon

/-- C4: after Prune, a key is present iff it was present before and belongs
to validPaths; retained keys keep their exact entry; and a rescan over a
file set that no longer contains a path leaves no cache entry for it. -/
theorem claim_C4_prune_membership (c : Cache) (valid : String → Bool) (p : String) :
    (((c.Prune valid).entries p).isSome ↔ (c.entries p).isSome ∧ valid p = true) ∧
    (∀ e, (c.Prune valid).entries p = some e → c.entries p = some e) ∧
    (valid p = true → (c.Prune valid).entries p = c.entries p) ∧
    (valid p = false → (c.Prune valid).entries p = none) ∧
    (∀ (fs : String → Option FileData) (files : List FileInfo) (cache : Cache),
      (∀ f ∈ files, f.path ≠ p) →
      ((scanAllCached fs files cache).2.1).entries p = none) := by
  refine ⟨?_, ?_, ?_, ?_, ?_⟩
  · rw [Cache.entries_Prune]
    cases hv : valid p <;> simp
  · intro e he
    rw [Cache.entries_Prune] at he
    cases hv : valid p with
    | false => rw [hv] at he; cases he
    | true => rw [hv] at he; simpa using he
  · intro hv; rw [Cache.entries_Prune, hv]; simp
  · intro hv; rw [Cache.entries_Prune, hv]; simp
  · intro fs files cache hnf
    show ((parseFilesWithCache fs files cache).2.1.Prune
      (fun q => files.any (fun f => f.path = q))).entries p = none
    rw [Cache.entries_Prune]
    have : files.any (fun f => f.path = p) = false := by
      simp only [List.any_eq_false]
      intro f hf
      simpa using hnf f hf
    rw [this]
    simp

/-- cW is a concrete one-entry cache used by the cache witnesses. -/
def cW : Cache :=
  ⟨fun p => if p = "/a/x.jsonl" then some { ModTime := 5, Sess := emptySession } else none⟩

/-- Witness for C2: on the concrete cache cW, the entry at mtime 5 is served
exactly at mtime 5 and refused at 4 and 6 and at an absent key. -/
theorem claim_C2_witness :
    cW.Get "/a/x.jsonl" 5 = (emptySession, true) ∧
    cW.Get "/a/x.jsonl" 4 = (emptySession, false) ∧
    cW.Get "/a/x.jsonl" 6 = (emptySession, false) ∧
    cW.Get "/b.jsonl" 5 = (emptySession, false) :=
  ⟨(claim_C2_get_exact_mtime cW "/a/x.jsonl" 5).2.1
      { ModTime := 5, Sess := emptySession } rfl rfl,
   (claim_C2_get_exact_mtime cW "/a/x.jsonl" 4).2.2.1
      { ModTime := 5, Sess := emptySession } rfl (by decide),
   (claim_C2_get_exact_mtime cW "/a/x.jsonl" 6).2.2.1
      { ModTime := 5, Sess := emptySession } rfl (by decide),
   (claim_C2_get_exact_mtime cW "/b.jsonl" 5).2.2.2 rfl⟩

/-- Witness for C4: pruning cW with a set containing its key keeps the
entry unchanged, pruning with an empty set removes it, and a rescan that no
longer discovers the key leaves no entry for it. -/
theorem claim_C4_witness :
    (cW.Prune (fun p => p == "/a/x.jsonl")).entries "/a/x.jsonl" =
      cW.entries "/a/x.jsonl" ∧
    (cW.Prune (fun _ => false)).entries "/a/x.jsonl" = none ∧
    ((scanAllCached (fun _ => none) [] cW).2.1).entries "/a/x.jsonl" = none :=
  ⟨(claim_C4_prune_membership cW (fun p => p == "/a/x.jsonl") "/a/x.jsonl").2.2.1 rfl,
   (claim_C4_prune_membership cW (fun _ => false) "/a/x.jsonl").2.2.2.1 rfl,
   (claim_C4_prune_membership cW (fun _ => false) "/a/x.jsonl").2.2.2.2
     (fun _ => none) [] cW (by simp)⟩

lemma basePath_ne_empty (p : String) : basePath p ≠ "" := by
  simp only [basePath]
  split_ifs with h1 h2
  · decide
  · decide
  · intro hcon
    exact h2 (congrArg String.data hcon)

/-- Counterexample for C6: the project path "/" does not map to the fixed
fallback name; filepath.Base gives "/" and the fallback check only catches
"" and ".", so the session name is "/". -/
theorem claim_C6_counterexample :
    ProjectToSessionName "/" = "/" ∧ ProjectToSessionName "/" ≠ "claude" := by
  constructor <;> decide

/-- C6 amended: ProjectToSessionName maps a project path to filepath.Base of
the path, except that a Base result of "." (arising from empty or "." input)
maps to the fallback name "claude"; in particular "/home/u/widgets" yields
"widgets", "" and "." yield "claude", but "/" yields "/" (Base of an
all-slash path is "/", which the fallback check does not catch). -/
theorem claim_C6_amended (p : String) :
    ProjectToSessionName "/home/u/widgets" = "widgets" ∧
    ProjectToSessionName "" = "claude" ∧
    ProjectToSessionName "." = "claude" ∧
    ProjectToSessionName "/" = "/" ∧
    ProjectToSessionName p = (if basePath p = "." then "claude" else basePath p) := by
  refine ⟨by decide, by decide, by decide, by decide, ?_⟩
  by_cases hd : basePath p = "."
  · simp [ProjectToSessionName, hd]
  · simp [ProjectToSessionName, hd, basePath_ne_empty p]

/-- Witness for C6 amended: the general clause evaluated at "/home/u" gives
the final component. -/
theorem claim_C6_amended_witness :
    ProjectToSessionName "/home/u" = (if basePath "/home/u" = "." then "claude"
      else basePath "/home/u") :=
  (claim_C6_amended "/home/u").2.2.2.2

/-- C7 (modelled from the spec, the implementation being outside src): a
session is disposable iff its name is purely numeric and it has at most 2
windows; "7" with 2 windows is disposable, "7" with 3 windows is not, and
"dev" is not for any window count. -/
theorem claim_C7_disposable_predicate :
    (∀ (name : String) (wc : Nat),
      isDisposableSession name wc = true ↔
        (name ≠ "" ∧ name.data.all Char.isDigit = true ∧ wc ≤ 2)) ∧
    isDisposableSession "7" 2 = true ∧
    isDisposableSession "7" 3 = false ∧
    (∀ wc : Nat, isDisposableSession "dev" wc = false) := by
  refine ⟨?_, by decide, by decide, ?_⟩
  · intro name wc
    simp [isDisposableSession, Bool.and_eq_true, decide_eq_true_eq, and_assoc]
  · intro wc
    have hdig : ("dev".data.all Char.isDigit) = false := by decide
    simp [isDisposableSession, hdig]

/-- C8: the record's projectPath is the cwd of the first well-formed
participant (user) line with a non-empty cwd field; later occurrences never
overwrite it, and it is empty when no such line exists. -/
theorem claim_C8_projectPath_first_user_cwd (fs : String → Option FileData)
    (path : String) (fd : FileData) (h : fs path = some fd) :
    ∀ sess, ParseFile fs path = some sess →
      sess.ProjectPath = (specFirstUserCwd fd.lines).getD "" :=
  fun sess hs => (ParseFile_characterization fs path fd h sess hs).2.2.2.2

/-- fdC8 is a transcript whose first non-empty cwd sits on an assistant
line, followed by two user lines with different cwds. -/
def fdC8 : FileData :=
  ⟨[some ⟨"assistant", "/ignored", "", "", ""⟩,
    some ⟨"user", "/first", "", "hi", ""⟩,
    some ⟨"user", "/second", "", "again", ""⟩], 3⟩

/-- fsC8 is a file system exposing fdC8 at one path. -/
def fsC8 : String → Option FileData :=
  fun p => if p = "/p/c8.jsonl" then some fdC8 else none

/-- sessC8 is the record ParseFile produces for fdC8. -/
def sessC8 : Session :=
  { ID := "c8", ProjectPath := "/first", Summary := "hi", ModTime := 3,
    FilePath := "/p/c8.jsonl", GitBranch := "", UserMsgCount := 2, AsstMsgCount := 1 }

/-- Witness for C8: on fdC8 the project path is the first user cwd "/first":
the earlier assistant cwd and the later user cwd do not land in the record. -/
theorem claim_C8_witness :
    fsC8 "/p/c8.jsonl" = some fdC8 ∧
    ParseFile fsC8 "/p/c8.jsonl" = some sessC8 ∧
    sessC8.ProjectPath = (specFirstUserCwd fdC8.lines).getD "" :=
  ⟨rfl, by decide,
   claim_C8_projectPath_first_user_cwd fsC8 "/p/c8.jsonl" fdC8 rfl sessC8 (by decide)⟩

/-- C1: the parsed record's summary follows the priority rule: the last
well-formed summary line with non-empty summary wins; else the first
non-empty user message, returned unchanged at length at most 60 and
otherwise cut to its first 57 characters plus the 3-character marker "..."
for a total length of 60; else the placeholder "(no summary)". -/
theorem claim_C1_summary_priority (fs : String → Option FileData)
    (path : String) (fd : FileData) (h : fs path = some fd) :
    ∀ sess, ParseFile fs path = some sess →
      sess.Summary = specSummary fd.lines ∧
      (∀ m, specLastSummary fd.lines = none →
        specFirstUserContent fd.lines = some m →
          (m.length ≤ 60 → sess.Summary = m) ∧
          (60 < m.length →
            sess.Summary = ⟨m.data.take 57⟩ ++ "..." ∧ sess.Summary.length = 60)) ∧
      (specLastSummary fd.lines = none → specFirstUserContent fd.lines = none →
        sess.Summary = "(no summary)") := by
  intro sess hsess
  have hsum := (ParseFile_characterization fs path fd h sess hsess).2.2.2.1
  refine ⟨hsum, ?_, ?_⟩
  · intro m hls hfc
    have hval : sess.Summary = truncate m 60 := by
      rw [hsum]; unfold specSummary; rw [hls, hfc]
    constructor
    · intro hle
      rw [hval, truncate_of_le m hle]
    · intro hgt
      refine ⟨?_, ?_⟩
      · rw [hval, truncate_of_gt m hgt]
      · rw [hval, truncate_length_of_gt m hgt]
  · intro hls hfc
    rw [hsum]; unfold specSummary; rw [hls, hfc]

/-- w1content is an 80-character participant message. -/
def w1content : String := String.mk (List.replicate 80 'a')

/-- fdW1 is a transcript with one user line carrying w1content and no
summary line. -/
def fdW1 : FileData := ⟨[some ⟨"user", "", "", w1content, ""⟩], 5⟩

/-- fsW1 is a file system exposing fdW1 at one path. -/
def fsW1 : String → Option FileData :=
  fun p => if p = "/p/w1.jsonl" then some fdW1 else none

/-- sessW1 is the record ParseFile produces for fdW1. -/
def sessW1 : Session :=
  { ID := "w1", ProjectPath := "",
    Summary := String.mk (List.replicate 57 'a') ++ "...", ModTime := 5,
    FilePath := "/p/w1.jsonl", GitBranch := "", UserMsgCount := 1, AsstMsgCount := 0 }

/-- Witness for C1: the 80-character message with no summary line yields a
60-character summary of 57 content characters plus the marker. -/
theorem claim_C1_witness :
    fsW1 "/p/w1.jsonl" = some fdW1 ∧
    ParseFile fsW1 "/p/w1.jsonl" = some sessW1 ∧
    60 < w1content.length ∧
    sessW1.Summary = ⟨w1content.data.take 57⟩ ++ "..." ∧
    sessW1.Summary.length = 60 := by
  refine ⟨rfl, by decide, by decide, ?_, ?_⟩
  · exact (((claim_C1_summary_priority fsW1 "/p/w1.jsonl" fdW1 rfl sessW1
      (by decide)).2.1 w1content rfl rfl).2 (by decide)).1
  · exact (((claim_C1_summary_priority fsW1 "/p/w1.jsonl" fdW1 rfl sessW1
      (by decide)).2.1 w1content rfl rfl).2 (by decide)).2

lemma scanAllCached_out (fs : String → Option FileData) (files : List FileInfo)
    (cache : Cache) :
    (scanAllCached fs files cache).1 = (parseFilesWithCache fs files cache).1 := rfl

lemma scanAllCached_parsed (fs : String → Option FileData) (files : List FileInfo)
    (cache : Cache) :
    (scanAllCached fs files cache).2.2 = (parseFilesWithCache fs files cache).2.2 := rfl

lemma scanAllCached_entries_mem (fs : String → Option FileData) (files : List FileInfo)
    (cache : Cache) (f : FileInfo) (hf : f ∈ files) :
    ((scanAllCached fs files cache).2.1).entries f.path =
      ((parseFilesWithCache fs files cache).2.1).entries f.path := by
  show (((parseFilesWithCache fs files cache).2.1).Prune
    (fun p => files.any (fun g => g.path = p))).entries f.path = _
  rw [Cache.entries_Prune]
  have : files.any (fun g => g.path = f.path) = true :=
    List.any_eq_true.mpr ⟨f, hf, by simp⟩
  rw [this]
  simp

lemma not_mem_parsed_of_path_unique (fs : String → Option FileData)
    (files : List FileInfo) (cache : Cache) (f : FileInfo)
    (hnd : (files.map FileInfo.path).Nodup) (hf : f ∈ files)
    (hhit : (cache.Get f.path f.modTime).2 = true) :
    f.path ∉ (parseFilesWithCache fs files cache).2.2 := by
  obtain ⟨_, hparsed⟩ := parseFilesWithCache_out_parsed fs files cache hnd
  rw [hparsed]
  intro hmem
  obtain ⟨g, hg, hgp⟩ := List.mem_map.mp hmem
  obtain ⟨hgfiles, hgpred⟩ := List.mem_filter.mp hg
  have hgmiss : (cache.Get g.path g.modTime).2 = false := by
    simpa using hgpred
  have : g = f := List.inj_on_of_nodup_map hnd hgfiles hf hgp
  rw [this] at hgmiss
  rw [hgmiss] at hhit
  cases hhit

/-- C3: a file whose (path, mtime) hits the cache contributes exactly the
cached record with no parser invocation; a miss parses, stores under
(path, mtime) and emits; and after a scan, a file that produced a record
hits on a rescan with unchanged mtime, yielding the identical record with
no parser invocation. -/
theorem claim_C3_scan_uses_cache (fs : String → Option FileData)
    (files : List FileInfo) (cache : Cache) (f : FileInfo)
    (hnd : (files.map FileInfo.path).Nodup) (hf : f ∈ files) :
    (scanAllCached fs files cache).1 = files.filterMap (scanResult fs cache) ∧
    ((cache.Get f.path f.modTime).2 = true →
      scanResult fs cache f = some (cache.Get f.path f.modTime).1 ∧
      (cache.Get f.path f.modTime).1 ∈ (scanAllCached fs files cache).1 ∧
      f.path ∉ (scanAllCached fs files cache).2.2) ∧
    ((cache.Get f.path f.modTime).2 = false →
      ∀ sess, ParseFile fs f.path = some sess →
        scanResult fs cache f = some sess ∧
        sess ∈ (scanAllCached fs files cache).1 ∧
        ((scanAllCached fs files cache).2.1).entries f.path =
          some { ModTime := f.modTime, Sess := sess } ∧
        f.path ∈ (scanAllCached fs files cache).2.2) ∧
    (∀ sess, scanResult fs cache f = some sess →
      ((scanAllCached fs files cache).2.1).Get f.path f.modTime = (sess, true) ∧
      sess ∈ (scanAllCached fs files ((scanAllCached fs files cache).2.1)).1 ∧
      f.path ∉ (scanAllCached fs files ((scanAllCached fs files cache).2.1)).2.2) := by
  obtain ⟨hout, hparsed⟩ := parseFilesWithCache_out_parsed fs files cache hnd
  refine ⟨?_, ?_, ?_, ?_⟩
  · rw [scanAllCached_out]; exact hout
  · intro hhit
    have hsr : scanResult fs cache f = some (cache.Get f.path f.modTime).1 := by
      simp [scanResult, hhit]
    refine ⟨hsr, ?_, ?_⟩
    · rw [scanAllCached_out, hout]
      exact List.mem_filterMap.mpr ⟨f, hf, hsr⟩
    · rw [scanAllCached_parsed]
      exact not_mem_parsed_of_path_unique fs files cache f hnd hf hhit
  · intro hmiss sess hpf
    have hsr : scanResult fs cache f = some sess := by
      simp [scanResult, hmiss, hpf]
    refine ⟨hsr, ?_, ?_, ?_⟩
    · rw [scanAllCached_out, hout]
      exact List.mem_filterMap.mpr ⟨f, hf, hsr⟩
    · rw [scanAllCached_entries_mem fs files cache f hf,
        parseFilesWithCache_entries_mem fs files cache f hnd hf, hmiss, hpf]
      simp
    · rw [scanAllCached_parsed, hparsed]
      refine List.mem_map.mpr ⟨f, ?_, rfl⟩
      exact List.mem_filter.mpr ⟨hf, by simp [hmiss]⟩
  · intro sess hsr
    have hc1e : ((scanAllCached fs files cache).2.1).entries f.path =
        ((parseFilesWithCache fs files cache).2.1).entries f.path :=
      scanAllCached_entries_mem fs files cache f hf
    have hc1get : ((scanAllCached fs files cache).2.1).Get f.path f.modTime =
        (sess, true) := by
      rcases Bool.eq_false_or_eq_true (cache.Get f.path f.modTime).2 with hb | hb
      · have h1 : (cache.Get f.path f.modTime).1 = sess := by
          have : scanResult fs cache f = some (cache.Get f.path f.modTime).1 := by
            simp [scanResult, hb]
          rw [this] at hsr
          exact Option.some_inj.mp hsr
        have hagree : ((scanAllCached fs files cache).2.1).entries f.path =
            cache.entries f.path := by
          rw [hc1e, parseFilesWithCache_entries_mem fs files cache f hnd hf, hb]
          simp
        rw [Cache.Get_congr f.path f.modTime hagree]
        calc cache.Get f.path f.modTime
            = ((cache.Get f.path f.modTime).1, (cache.Get f.path f.modTime).2) := rfl
          _ = (sess, true) := by rw [h1, hb]
      · have hpf : ParseFile fs f.path = some sess := by
          have : scanResult fs cache f = ParseFile fs f.path := by
            simp [scanResult, hb]
          rw [← this, hsr]
        have hent : ((scanAllCached fs files cache).2.1).entries f.path =
            some { ModTime := f.modTime, Sess := sess } := by
          rw [hc1e, parseFilesWithCache_entries_mem fs files cache f hnd hf, hb, hpf]
          simp
        unfold Cache.Get
        rw [hent]
        simp
    obtain ⟨hout2, hparsed2⟩ :=
      parseFilesWithCache_out_parsed fs files ((scanAllCached fs files cache).2.1) hnd
    have hsr2 : scanResult fs ((scanAllCached fs files cache).2.1) f = some sess := by
      simp [scanResult, hc1get]
    refine ⟨hc1get, ?_, ?_⟩
    · rw [scanAllCached_out, hout2]
      exact List.mem_filterMap.mpr ⟨f, hf, hsr2⟩
    · rw [scanAllCached_parsed]
      exact not_mem_parsed_of_path_unique fs files
        ((scanAllCached fs files cache).2.1) f hnd hf (by rw [hc1get])

/-- filesW1 is a one-file discovery set over fsW1. -/
def filesW1 : List FileInfo := [⟨"/p/w1.jsonl", 5⟩]

/-- Witness for C3: with an empty cache, the single file misses, is parsed,
stored under its (path, mtime) and emitted; rescanning with the resulting
cache and the unchanged mtime emits the identical record with no parse. -/
theorem claim_C3_witness :
    (emptyCache.Get "/p/w1.jsonl" 5).2 = false ∧
    sessW1 ∈ (scanAllCached fsW1 filesW1 emptyCache).1 ∧
    ((scanAllCached fsW1 filesW1 emptyCache).2.1).entries "/p/w1.jsonl" =
      some { ModTime := 5, Sess := sessW1 } ∧
    "/p/w1.jsonl" ∈ (scanAllCached fsW1 filesW1 emptyCache).2.2 ∧
    sessW1 ∈ (scanAllCached fsW1 filesW1
      ((scanAllCached fsW1 filesW1 emptyCache).2.1)).1 ∧
    "/p/w1.jsonl" ∉ (scanAllCached fsW1 filesW1
      ((scanAllCached fsW1 filesW1 emptyCache).2.1)).2.2 := by
  have hmiss := (claim_C3_scan_uses_cache fsW1 filesW1 emptyCache
    ⟨"/p/w1.jsonl", 5⟩ (by decide) (by decide)).2.2.1 (by decide) sessW1 (by decide)
  have hsecond := (claim_C3_scan_uses_cache fsW1 filesW1 emptyCache
    ⟨"/p/w1.jsonl", 5⟩ (by decide) (by decide)).2.2.2 sessW1 (by decide)
  exact ⟨by decide, hmiss.2.1, hmiss.2.2.1, hmiss.2.2.2, hsecond.2.1, hsecond.2.2⟩

/-- C5: a discovered file that misses the cache and whose open or parse
fails contributes nothing: no record is emitted for it, nothing is stored
for it, and every emitted record is the per-file result of some other file,
each computed independently of the failing one. -/
theorem claim_C5_failed_file_dropped (fs : String → Option FileData)
    (files : List FileInfo) (cache : Cache) (f : FileInfo)
    (hnd : (files.map FileInfo.path).Nodup) (hf : f ∈ files)
    (hmiss : (cache.Get f.path f.modTime).2 = false)
    (hfail : ParseFile fs f.path = none) :
    scanResult fs cache f = none ∧
    (scanAllCached fs files cache).1 = files.filterMap (scanResult fs cache) ∧
    (∀ s ∈ (scanAllCached fs files cache).1,
      ∃ g, g ∈ files ∧ g ≠ f ∧ scanResult fs cache g = some s) ∧
    ((scanAllCached fs files cache).2.1).entries f.path = cache.entries f.path := by
  obtain ⟨hout, _⟩ := parseFilesWithCache_out_parsed fs files cache hnd
  have hsr : scanResult fs cache f = none := by
    simp [scanResult, hmiss, hfail]
  refine ⟨hsr, ?_, ?_, ?_⟩
  · rw [scanAllCached_out]; exact hout
  · intro s hs
    rw [scanAllCached_out, hout] at hs
    obtain ⟨g, hg, hsg⟩ := List.mem_filterMap.mp hs
    refine ⟨g, hg, ?_, hsg⟩
    intro hcon
    rw [hcon, hsr] at hsg
    cases hsg
  · rw [scanAllCached_entries_mem fs files cache f hf,
      parseFilesWithCache_entries_mem fs files cache f hnd hf, hmiss, hfail]
    simp

/-- filesC5 is a discovery set with one unreadable path and one readable
transcript, over fsC8 (which exposes only /p/c8.jsonl). -/
def filesC5 : List FileInfo := [⟨"/p/bad.jsonl", 7⟩, ⟨"/p/c8.jsonl", 3⟩]

/-- Witness for C5: the unreadable file is dropped silently, the scan
output is exactly the other file's record, and nothing is cached for the
unreadable path. -/
theorem claim_C5_witness :
    ParseFile fsC8 "/p/bad.jsonl" = none ∧
    scanResult fsC8 emptyCache ⟨"/p/bad.jsonl", 7⟩ = none ∧
    (scanAllCached fsC8 filesC5 emptyCache).1 = [sessC8] ∧
    ((scanAllCached fsC8 filesC5 emptyCache).2.1).entries "/p/bad.jsonl" = none := by
  have h := claim_C5_failed_file_dropped fsC8 filesC5 emptyCache
    ⟨"/p/bad.jsonl", 7⟩ (by decide) (by decide) (by decide) (by decide)
  refine ⟨by decide, h.1, ?_, h.2.2.2⟩
  rw [h.2.1]
  decide

lemma ParseFile_FilePath_ID (fs : String → Option FileData) (path : String)
    (sess : Session) (h : ParseFile fs path = some sess) :
    sess.FilePath = path ∧ sess.ID = sessionId path := by
  cases hfs : fs path with
  | none => rw [ParseFile, hfs] at h; cases h
  | some fd =>
    have hc := ParseFile_characterization fs path fd hfs sess h
    exact ⟨hc.2.1, hc.1⟩

lemma Cache.Get_hit_entry (c : Cache) (path : String) (mtime : Nat)
    (h : (c.Get path mtime).2 = true) :
    ∃ e, c.entries path = some e ∧ e.ModTime = mtime ∧
      (c.Get path mtime).1 = e.Sess := by
  unfold Cache.Get at h
  cases he : c.entries path with
  | none => simp only [he] at h; cases h
  | some e =>
    simp only [he] at h
    by_cases hm : e.ModTime = mtime
    · refine ⟨e, rfl, hm, ?_⟩
      unfold Cache.Get
      simp only [he, hm, if_true]
    · simp only [hm, if_false] at h
      cases h

lemma filterMap_map_FilePath (g : FileInfo → Option Session)
    (hg : ∀ f s, g f = some s → s.FilePath = f.path) :
    ∀ files : List FileInfo,
      ((files.filterMap g).map Session.FilePath) =
        (files.filter (fun f => (g f).isSome)).map FileInfo.path := by
  intro files
  induction files with
  | nil => rfl
  | cons f rest ih =>
    cases hgf : g f with
    | none => simp [List.filterMap_cons, List.filter_cons, hgf, ih]
    | some s => simp [List.filterMap_cons, List.filter_cons, hgf, ih, hg f s hgf]

/-- fsC9 exposes two empty transcripts whose base names coincide in
different directories. -/
def fsC9 : String → Option FileData :=
  fun p => if p = "/a/x.jsonl" then some ⟨[], 1⟩
           else if p = "/b/x.jsonl" then some ⟨[], 2⟩ else none

/-- filesC9 is the discovery set over fsC9. -/
def filesC9 : List FileInfo := [⟨"/a/x.jsonl", 1⟩, ⟨"/b/x.jsonl", 2⟩]

/-- sessA9 is the record produced for /a/x.jsonl. -/
def sessA9 : Session :=
  { ID := "x", ProjectPath := "", Summary := "(no summary)", ModTime := 1,
    FilePath := "/a/x.jsonl", GitBranch := "", UserMsgCount := 0, AsstMsgCount := 0 }

/-- sessB9 is the record produced for /b/x.jsonl. -/
def sessB9 : Session :=
  { ID := "x", ProjectPath := "", Summary := "(no summary)", ModTime := 2,
    FilePath := "/b/x.jsonl", GitBranch := "", UserMsgCount := 0, AsstMsgCount := 0 }

/-- Counterexample for C9: one scan can emit two records with distinct
filePath but equal id, because the id is the base name minus the extension
and base names repeat across project directories. -/
theorem claim_C9_counterexample :
    sessA9 ∈ (scanAllCached fsC9 filesC9 emptyCache).1 ∧
    sessB9 ∈ (scanAllCached fsC9 filesC9 emptyCache).1 ∧
    sessA9.FilePath ≠ sessB9.FilePath ∧
    sessA9.ID = sessB9.ID := by
  refine ⟨by decide, by decide, by decide, by decide⟩

/-- C9 amended: over a duplicate-free discovery set and a cache whose
entries carry their own key and its derived id, a scan's records have
pairwise-distinct filePath values and every record's id is derived solely
from its filePath (id = sessionId filePath); distinct filePaths however do
not force distinct ids, since sessionId only uses the base name. -/
theorem claim_C9_amended (fs : String → Option FileData) (files : List FileInfo)
    (cache : Cache) (hnd : (files.map FileInfo.path).Nodup)
    (hwf : ∀ p e, cache.entries p = some e →
      e.Sess.FilePath = p ∧ e.Sess.ID = sessionId p) :
    ((scanAllCached fs files cache).1.map Session.FilePath).Nodup ∧
    (∀ s ∈ (scanAllCached fs files cache).1, s.ID = sessionId s.FilePath) := by
  obtain ⟨hout, _⟩ := parseFilesWithCache_out_parsed fs files cache hnd
  have hg : ∀ f s, scanResult fs cache f = some s →
      s.FilePath = f.path ∧ s.ID = sessionId f.path := by
    intro f s hfs
    rcases Bool.eq_false_or_eq_true (cache.Get f.path f.modTime).2 with hb | hb
    · have heq : scanResult fs cache f = some (cache.Get f.path f.modTime).1 := by
        simp [scanResult, hb]
      rw [heq] at hfs
      have hs1 : (cache.Get f.path f.modTime).1 = s := Option.some_inj.mp hfs
      obtain ⟨e, he, _, hsg⟩ := Cache.Get_hit_entry cache f.path f.modTime hb
      obtain ⟨h1, h2⟩ := hwf f.path e he
      rw [hsg] at hs1
      exact ⟨hs1 ▸ h1, hs1 ▸ h2⟩
    · have heq : scanResult fs cache f = ParseFile fs f.path := by
        simp [scanResult, hb]
      rw [heq] at hfs
      exact ParseFile_FilePath_ID fs f.path s hfs
  constructor
  · rw [scanAllCached_out, hout,
      filterMap_map_FilePath (scanResult fs cache) (fun f s h => (hg f s h).1) files]
    have hsub : ((files.filter (fun f => (scanResult fs cache f).isSome)).map
        FileInfo.path).Sublist (files.map FileInfo.path) :=
      (List.filter_sublist files).map FileInfo.path
    exact hnd.sublist hsub
  · intro s hs
    rw [scanAllCached_out, hout] at hs
    obtain ⟨f, hf, hsf⟩ := List.mem_filterMap.mp hs
    obtain ⟨h1, h2⟩ := hg f s hsf
    rw [h1]
    exact h2

/-- Witness for C9 amended: on the two-file scan over fsC9 the filePaths
are pairwise distinct and each id is sessionId of its filePath. -/
theorem claim_C9_amended_witness :
    (((scanAllCached fsC9 filesC9 emptyCache).1.map Session.FilePath).Nodup) ∧
    (∀ s ∈ (scanAllCached fsC9 filesC9 emptyCache).1,
      s.ID = sessionId s.FilePath) :=
  claim_C9_amended fsC9 filesC9 emptyCache (by decide)
    (fun p e h => by simp [emptyCache] at h)
